import Mathlib

/-!
Verification development for the news_catcher analytical core.

The Python sources are embedded shallowly:
- `src/app/app.py`: title normalization, period bucketing, clustering,
  importance scoring, winner selection, cluster summarization
  (`key_events_by_period` and its helpers);
- `src/summarizer.py`: sentence splitting of `TextSummarizer`;
- `src/timeline.py`: `TimelineGenerator.get_coverage_stats`.

Conventions of the embedding:
- Python strings are `List Char`; a missing (`None`) string field and the
  empty string are identified, because every use site in the sources goes
  through Python truthiness (`x or fallback`, `if not x`), which cannot
  tell them apart.
- Python `datetime` values are records of integer fields; instants are
  compared and subtracted through `toSec`, the count of seconds since
  1970-01-01 00:00:00 computed with the standard civil-calendar algorithm.
- Python floats are modelled as `ℚ`; `round(x, n)` is rounding of the
  exact rational to `n` decimal places.
-/

/-- Characters Python treats as whitespace in `str.split`, `str.strip` and
the regex class `\s` (ASCII range). -/
def isSpaceChar (c : Char) : Bool :=
  c == ' ' || c == '\t' || c == '\n' || c == '\r' || c == Char.ofNat 11 || c == Char.ofNat 12

/-- ASCII lowercasing, as applied by `str.lower` to the titles and source
names appearing here. -/
def lowerChar (c : Char) : Char :=
  if 'A' ≤ c ∧ c ≤ 'Z' then Char.ofNat (c.toNat + 32) else c

/-- Python `str.lstrip()` on the ASCII whitespace set. -/
def lstripChars (l : List Char) : List Char := l.dropWhile isSpaceChar

/-- Python `str.rstrip()` on the ASCII whitespace set. -/
def rstripChars (l : List Char) : List Char := (l.reverse.dropWhile isSpaceChar).reverse

/-- Python `str.strip()` on the ASCII whitespace set. -/
def stripChars (l : List Char) : List Char := rstripChars (lstripChars l)

/-- Helper of `collapseWs`; the flag records whether the previous
character belonged to a whitespace run already replaced by a space. -/
def collapseWsAux : Bool → List Char → List Char
  | _, [] => []
  | inRun, c :: rest =>
    if isSpaceChar c then
      if inRun then collapseWsAux true rest else ' ' :: collapseWsAux true rest
    else c :: collapseWsAux false rest

/-- Python `re.sub(r"\s+", " ", d)`: collapse each whitespace run to a
single space (`summarize_cluster`, app.py line 331). -/
def collapseWs (l : List Char) : List Char := collapseWsAux false l

/-- Helper of `splitWs`: accumulate the current word (reversed) while
scanning; whitespace runs end words, empties are dropped. -/
def splitWsAux : List Char → List Char → List (List Char)
  | [], cur => if cur = [] then [] else [cur.reverse]
  | c :: rest, cur =>
    if isSpaceChar c then
      if cur = [] then splitWsAux rest [] else cur.reverse :: splitWsAux rest []
    else splitWsAux rest (c :: cur)

/-- Python `str.split()` with no argument: split on whitespace runs,
returning no empty words. -/
def splitWs (l : List Char) : List (List Char) := splitWsAux l []

/-- Calendar: number of days from 1970-01-01 to the civil date `(y, m, d)`
(the standard era/year-of-era algorithm; this is the linear time scale
underlying Python `datetime` subtraction). -/
def daysFromCivil (y m d : ℤ) : ℤ :=
  let y2 := if m ≤ 2 then y - 1 else y
  let era := y2.fdiv 400
  let yoe := y2 - era * 400
  let doy := (153 * (if 2 < m then m - 3 else m + 9) + 2).fdiv 5 + d - 1
  let doe := yoe * 365 + yoe.fdiv 4 - yoe.fdiv 100 + doy
  era * 146097 + doe - 719468

/-- Calendar: inverse of `daysFromCivil`, recovering `(year, month, day)`
from a day number (used where app.py re-parses a bucket's period-start
string with `strptime`). -/
def civilFromDays (z : ℤ) : ℤ × ℤ × ℤ :=
  let z2 := z + 719468
  let era := z2.fdiv 146097
  let doe := z2 - era * 146097
  let yoe := (doe - doe.fdiv 1460 + doe.fdiv 36524 - doe.fdiv 146096).fdiv 365
  let y := yoe + era * 400
  let doy := doe - (365 * yoe + yoe.fdiv 4 - yoe.fdiv 100)
  let mp := (5 * doy + 2).fdiv 153
  let d := doy - (153 * mp + 2).fdiv 5 + 1
  let m := if mp < 10 then mp + 3 else mp - 9
  (if m ≤ 2 then y + 1 else y, m, d)

/-- A Python `datetime` value (naive, as used throughout the sources). -/
structure DateTime where
  year : ℤ
  month : ℤ
  day : ℤ
  hour : ℤ
  minute : ℤ
  second : ℤ
deriving DecidableEq, Inhabited

/-- Seconds since 1970-01-01 00:00:00; Python `datetime` comparison and
subtraction are comparison and subtraction of this instant. -/
def toSec (dt : DateTime) : ℤ :=
  daysFromCivil dt.year dt.month dt.day * 86400
    + dt.hour * 3600 + dt.minute * 60 + dt.second

/-- Field ranges enforced by the Python `datetime` constructor. -/
def ValidDT (dt : DateTime) : Prop :=
  1 ≤ dt.month ∧ dt.month ≤ 12 ∧ 1 ≤ dt.day ∧ dt.day ≤ 31
    ∧ 0 ≤ dt.hour ∧ dt.hour < 24 ∧ 0 ≤ dt.minute ∧ dt.minute < 60
    ∧ 0 ≤ dt.second ∧ dt.second < 60

instance : DecidablePred ValidDT := fun dt => by unfold ValidDT; infer_instance

/-- An article record as consumed by `key_events_by_period` (app.py).
Missing optional strings are the empty list, see the file comment. -/
structure Article where
  title : List Char
  link : List Char
  published : DateTime
  source : List Char
  description : List Char
deriving DecidableEq, Inhabited

/-- The STOPWORDS set of app.py lines 130-135 (the apostrophe word is
built with `Char.ofNat 39`). -/
def STOPWORDS : List (List Char) :=
  (["the", "a", "an", "and", "or", "but", "if", "then", "else", "for", "on", "in",
    "at", "to", "of", "by", "with", "from", "as",
    "is", "are", "was", "were", "be", "been", "being", "this", "that", "these",
    "those", "about", "over", "under", "after", "before",
    "into", "out", "up", "down", "off", "not", "no", "so", "it", "its",
    "their", "his", "her", "him", "she", "he", "they", "them",
    "you", "your", "i", "we", "our", "us"].map String.toList)
    ++ [['i', 't', Char.ofNat 39, 's']]

/-- Character class kept by `re.sub(r"[^a-z0-9\s]", " ", t)` after
lowercasing (app.py line 225). -/
def isKeepChar (c : Char) : Bool :=
  if ('a' ≤ c ∧ c ≤ 'z') ∨ ('0' ≤ c ∧ c ≤ '9') then true else isSpaceChar c

/-- app.py `normalize_title` (lines 221-228): lowercase, strip everything
but letters, digits and whitespace, tokenize, drop short and stop words,
keep the first 8 tokens joined by single spaces. -/
def normalizeTitle (title : List Char) : List Char :=
  if title = [] then []
  else
    let t1 := title.map lowerChar
    let t2 := t1.map fun c => if isKeepChar c then c else ' '
    let toks := (splitWs t2).filter fun w => decide (3 ≤ w.length ∧ w ∉ STOPWORDS)
    List.intercalate [' '] (toks.take 8)

/-- The grouping key of app.py lines 260-262: the normalized title, with
fallback to raw title, then link, then the literal `unknown`. -/
def clusterKey (a : Article) : List Char :=
  let k := normalizeTitle a.title
  if k = [] then
    if a.title = [] then (if a.link = [] then "unknown".toList else a.link) else a.title
  else k

/-- One step of Python `dict.setdefault(key, []).append(x)` grouping on an
association list kept in key insertion order. -/
def insertGrouped {κ α : Type} [DecidableEq κ] (k : κ) (a : α) :
    List (κ × List α) → List (κ × List α)
  | [] => [(k, [a])]
  | p :: rest => if p.1 = k then (p.1, p.2 ++ [a]) :: rest else p :: insertGrouped k a rest

/-- Grouping of a list by a key function, preserving first-seen insertion
order of keys and of members within a group — the behavior of the Python
dict loops in `key_events_by_period` (app.py lines 246-254 and 258-263). -/
def groupBy {κ α : Type} [DecidableEq κ] (f : α → κ) (l : List α) : List (κ × List α) :=
  l.foldl (fun gs a => insertGrouped (f a) a gs) []

/-- The SOURCE_AUTHORITY table of app.py lines 138-161, in insertion
order; 2.0 for tier 1, 1.5 for tier 2. -/
def authTable : List (List Char × ℚ) :=
  ([("new york times", 2), ("nyt", 2), ("the new york times", 2),
    ("bbc", 2), ("bbc news", 2),
    ("reuters", 2),
    ("associated press", 2), ("ap news", 2),
    ("wall street journal", 2), ("wsj", 2),
    ("washington post", 2), ("wapo", 2),
    ("the guardian", 2), ("guardian", 2),
    ("financial times", 2), ("ft", 2),
    ("cnn", 1.5), ("cnn news", 1.5),
    ("fox news", 1.5),
    ("nbc news", 1.5), ("nbc", 1.5),
    ("abc news", 1.5), ("abc", 1.5),
    ("cbs news", 1.5), ("cbs", 1.5),
    ("bloomberg", 1.5),
    ("npr", 1.5),
    ("usa today", 1.5),
    ("the economist", 1.5), ("economist", 1.5)] :
      List (String × ℚ)).map fun p => (p.1.toList, p.2)

/-- Does `pre` start `l`? -/
def prefixMatch : List Char → List Char → Bool
  | [], _ => true
  | _ :: _, [] => false
  | a :: as2, b :: bs => a == b && prefixMatch as2 bs

/-- Python substring test `needle in hay`. -/
def containsSub (needle : List Char) : List Char → Bool
  | [] => needle.isEmpty
  | c :: rest => prefixMatch needle (c :: rest) || containsSub needle rest

/-- First table entry whose key is a substring of the lowercased source;
default weight 1 (app.py lines 169-172). -/
def lookupAuth : List (List Char × ℚ) → List Char → ℚ
  | [], _ => 1
  | p :: rest, s => if containsSub p.1 s then p.2 else lookupAuth rest s

/-- app.py `get_source_authority_weight` (lines 164-172). -/
def getSourceAuthorityWeight (src : List Char) : ℚ :=
  if src = [] then 1 else lookupAuth authTable (src.map lowerChar)

/-- The authority-weighted count of `calculate_importance_score`
(app.py lines 192-195). -/
def authorityScoreOf (cluster : List Article) : ℚ :=
  (cluster.map fun a => getSourceAuthorityWeight a.source).sum

/-- The lowercased source name with the `unknown` fallback used for the
diversity count (app.py lines 186-189). -/
def srcKey (a : Article) : List Char :=
  (if a.source = [] then "unknown".toList else a.source).map lowerChar

/-- Number of distinct lowercased source names in a cluster
(app.py lines 186-189). -/
def uniqueSourcesOf (cluster : List Article) : ℕ :=
  (cluster.map srcKey).toFinset.card

/-- Per-article temporal freshness (app.py lines 202-204), relative to the
period `[psSec, peSec)` given in seconds. -/
def freshnessOf (a : Article) (psSec peSec : ℤ) : ℚ :=
  ((toSec a.published - psSec : ℤ) : ℚ) / ((peSec - psSec : ℤ) : ℚ)

/-- Average freshness with the degenerate-period and empty-list guards of
app.py lines 198-208. -/
def avgFreshnessOf (cluster : List Article) (psSec peSec : ℤ) : ℚ :=
  if 0 < peSec - psSec then
    if cluster = [] then 0.5
    else (cluster.map fun a => freshnessOf a psSec peSec).sum / (cluster.length : ℚ)
  else 0.5

/-- app.py `calculate_importance_score` (lines 175-218). -/
def calculateImportanceScore (cluster : List Article) (psSec peSec : ℤ) : ℚ :=
  (cluster.length : ℚ) * 0.4 + (uniqueSourcesOf cluster : ℚ) * 0.25
    + authorityScoreOf cluster * 0.2 + avgFreshnessOf cluster psSec peSec * 15 * 0.15

/-- The body of the winner-selection loop: replace the current best
exactly when the candidate's value is strictly greater. -/
def bestFold {γ : Type} (f : γ → ℚ) (init : γ × ℚ) (cs : List γ) : γ × ℚ :=
  cs.foldl (fun best c => if best.2 < f c then (c, f c) else best) init

/-- The winner-selection loop of app.py lines 279-285: fold over the
clusters in insertion order, starting from an empty best cluster and a
best score of -1, replacing the best on a strictly greater score. -/
def selectWinner (clusters : List (List Article)) (psSec peSec : ℤ) :
    List Article × ℚ :=
  bestFold (fun c => calculateImportanceScore c psSec peSec) ([], -1) clusters

/-- Stable insertion by publication instant (earlier first; on equal
instants the inserted, originally-earlier element goes first). -/
def insertByPub (a : Article) : List Article → List Article
  | [] => [a]
  | b :: rest =>
    if toSec a.published ≤ toSec b.published then a :: b :: rest
    else b :: insertByPub a rest

/-- Stable sort by publication instant, the embedding of Python
`sorted(best_cluster, key=lambda x: x["published"])` (app.py line 291). -/
def sortByPub : List Article → List Article
  | [] => []
  | a :: rest => insertByPub a (sortByPub rest)

/-- The representative article of a winning cluster (app.py line 291):
first element of the stable sort by publication instant. -/
def representative (cluster : List Article) : Article :=
  (sortByPub cluster).headI

/-- Delimiter class of the `first_sentence` regex in `summarize_cluster`
(app.py line 339). -/
def isSentEnd (c : Char) : Bool := c == '.' || c == '!' || c == '?'

/-- Scan for the first split point of `re.split(r"(?<=[.!?])\s+", text)`:
the prefix up to (and including) a sentence terminator followed by
whitespace. -/
def firstSegment : List Char → List Char
  | [] => []
  | [c] => [c]
  | c :: d :: rest =>
    if isSentEnd c && isSpaceChar d then [c] else c :: firstSegment (d :: rest)

/-- The `first_sentence` helper of `summarize_cluster` (app.py lines
338-340): first part of the lookbehind split, stripped. -/
def firstSentence (text : List Char) : List Char := stripChars (firstSegment text)

/-- The non-empty descriptions of a cluster, stripped and with whitespace
runs collapsed (app.py lines 329-331). -/
def descsOf (cluster : List Article) : List (List Char) :=
  ((cluster.filter fun c => !c.description.isEmpty).map
    fun c => collapseWs (stripChars c.description))

/-- Stable insertion for the descending-by-length description sort. -/
def insertDesc (d : List Char) : List (List Char) → List (List Char)
  | [] => [d]
  | e :: rest => if e.length ≤ d.length then d :: e :: rest else e :: insertDesc d rest

/-- Stable sort of descriptions by length, longest first: the embedding
of Python `descs.sort(key=len, reverse=True)` (app.py line 336). -/
def sortDescs : List (List Char) → List (List Char)
  | [] => []
  | d :: rest => insertDesc d (sortDescs rest)

/-- Combine the first sentences of the two longest descriptions, skipping
an empty or duplicate second sentence (app.py lines 342-350). -/
def combineTop2 (descs : List (List Char)) : List Char :=
  let sorted := sortDescs descs
  let s1 := firstSentence sorted.headI
  let s2 := match sorted with
    | _ :: d2 :: _ => firstSentence d2
    | _ => []
  if s2 ≠ [] ∧ s2 ≠ s1 then s1 ++ ' ' :: s2 else s1

/-- The 280-character cap of app.py lines 353-354: over the limit, keep
the right-stripped first 277 characters and append an ellipsis. -/
def truncate280 (combined : List Char) : List Char :=
  if 280 < combined.length then rstripChars (combined.take 277) ++ "...".toList
  else combined

/-- app.py `summarize_cluster` (lines 322-355). -/
def summarizeCluster (cluster : List Article) (fallback : List Char) : List Char :=
  let descs := descsOf cluster
  if descs = [] then fallback else truncate280 (combineTop2 descs)

/-- Day number of the bucket start assigned to a publication instant
(app.py lines 231-242 and 247-254): the calendar date for daily, the
Monday of the ISO week for weekly (1970-01-01, day 0, was a Thursday,
weekday 3), the first of the month for monthly; any granularity other
than daily or monthly falls to weekly. -/
def periodStartDay (g : List Char) (dt : DateTime) : ℤ :=
  if g = "daily".toList then daysFromCivil dt.year dt.month dt.day
  else if g = "monthly".toList then daysFromCivil dt.year dt.month 1
  else daysFromCivil dt.year dt.month dt.day
    - (daysFromCivil dt.year dt.month dt.day + 3).emod 7

/-- Day number of the bucket end (app.py lines 266-276): next day, next
month start (rolling December over), or next week. -/
def periodEndDay (g : List Char) (ps : ℤ) : ℤ :=
  if g = "daily".toList then ps + 1
  else if g = "monthly".toList then
    match civilFromDays ps with
    | (y, m, _) => if m = 12 then daysFromCivil (y + 1) 1 1 else daysFromCivil y (m + 1) 1
  else ps + 7

/-- Python `round(x, 2)` on the exact rational value. -/
def round2 (x : ℚ) : ℚ := ((round (100 * x) : ℤ) : ℚ) / 100

/-- A key-event record (app.py lines 306-316); `periodStart` is the day
number standing for the `YYYY-MM-DD` string, and `published` keeps the
representative's instant that line 310 formats for display. -/
structure KeyEvent where
  periodStart : ℤ
  title : List Char
  link : List Char
  published : DateTime
  clusterSize : ℕ
  importanceScore : ℚ
  uniqueSources : ℕ
  avgAuthority : ℚ
  summary : List Char
deriving DecidableEq, Inhabited

/-- The per-bucket body of `key_events_by_period` (app.py lines 257-316):
cluster the bucket, score each cluster, pick the winner, and build the
event; `none` when the winner-selection loop kept the empty initial
cluster (the `if not best_cluster: continue` guard). -/
def processBucket (g : List Char) (ps : ℤ) (arr : List Article) : Option KeyEvent :=
  let groups := groupBy clusterKey arr
  let psSec := ps * 86400
  let peSec := periodEndDay g ps * 86400
  let best := selectWinner (groups.map Prod.snd) psSec peSec
  if best.1 = [] then none
  else
    let rep := representative best.1
    some
      { periodStart := ps
        title := rep.title
        link := rep.link
        published := rep.published
        clusterSize := best.1.length
        importanceScore := round2 best.2
        uniqueSources := uniqueSourcesOf best.1
        avgAuthority := round2 (authorityScoreOf best.1 / (best.1.length : ℚ))
        summary := summarizeCluster best.1 rep.title }

/-- Stable insertion by period start for the final chronological sort. -/
def insertEvent (e : KeyEvent) : List KeyEvent → List KeyEvent
  | [] => [e]
  | x :: rest => if e.periodStart ≤ x.periodStart then e :: x :: rest else x :: insertEvent e rest

/-- Stable sort of the emitted events by period start (app.py line 318;
lexicographic order on the `YYYY-MM-DD` keys is day-number order). -/
def sortEvents : List KeyEvent → List KeyEvent
  | [] => []
  | e :: rest => insertEvent e (sortEvents rest)

/-- app.py `key_events_by_period` (lines 245-319): bucket the articles by
granularity in insertion order, emit at most one event per bucket, sort
chronologically. -/
def keyEventsByPeriod (items : List Article) (g : List Char) : List KeyEvent :=
  sortEvents
    (((groupBy (fun a => periodStartDay g a.published) items)).filterMap
      fun b => processBucket g b.1 b.2)

/-- Sentence delimiter class of `TextSummarizer._split_sentences`
(summarizer.py line 128). -/
def isSplitDelim (c : Char) : Bool := c == '.' || c == '!' || c == '?'

/-- Helper of `splitRaw`: accumulate the current segment (reversed); a
delimiter run ends the segment, and the flag records being inside a run
whose segment is already emitted. -/
def splitRawAux : Bool → List Char → List Char → List (List Char)
  | false, [], cur => [cur.reverse]
  | true, [], _ => [[]]
  | false, c :: rest, cur =>
    if isSplitDelim c then cur.reverse :: splitRawAux true rest []
    else splitRawAux false rest (c :: cur)
  | true, c :: rest, cur =>
    if isSplitDelim c then splitRawAux true rest cur
    else splitRawAux false rest [c]

/-- Python `re.split(r'[.!?]+', text)` (summarizer.py line 128): the
segments between maximal delimiter runs, including empty ones. -/
def splitRaw (text : List Char) : List (List Char) := splitRawAux false text []

/-- summarizer.py `_split_sentences` (lines 125-130): strip each segment
and keep those whose stripped length exceeds 20 characters. -/
def splitSentences (text : List Char) : List (List Char) :=
  ((splitRaw text).map stripChars).filter fun s => decide (20 < s.length)

/-- An article record as consumed by `TimelineGenerator.get_coverage_stats`
(timeline.py); per the core precondition every record carries a
publication instant. -/
structure TArticle where
  publishedDate : DateTime
  publisher : List Char
deriving DecidableEq, Inhabited

/-- The coverage-statistics record of timeline.py lines 216-240. -/
structure CoverageStats where
  totalArticles : ℕ
  uniqueSources : ℕ
  dateSpanDays : ℤ
  avgArticlesPerDay : ℚ
deriving DecidableEq, Inhabited

/-- Python `round(x, 1)` on the exact rational value. -/
def round1 (x : ℚ) : ℚ := ((round (10 * x) : ℤ) : ℚ) / 10

/-- Largest publication instant of a non-empty list (Python `max(dates)`
compares datetimes by instant). -/
def maxSec (l : List ℤ) : ℤ := l.foldl max l.headI

/-- Smallest publication instant of a non-empty list. -/
def minSec (l : List ℤ) : ℤ := l.foldl min l.headI

/-- timeline.py `get_coverage_stats` (lines 206-240): totals, distinct
publishers, the day span `(max - min).days + 1`, and the per-day average
rounded to one decimal with the divisor floored at 1. -/
def getCoverageStats (articles : List TArticle) : CoverageStats :=
  if articles = [] then ⟨0, 0, 0, 0⟩
  else
    let dates := articles.map fun a => toSec a.publishedDate
    let dateSpan := (maxSec dates - minSec dates).fdiv 86400 + 1
    let avgPerDay : ℚ := (articles.length : ℚ) / ((max dateSpan 1 : ℤ) : ℚ)
    { totalArticles := articles.length
      uniqueSources := (articles.map fun a => a.publisher).toFinset.card
      dateSpanDays := dateSpan
      avgArticlesPerDay := round1 avgPerDay }

/-- Written from the claim text of C9 as amended: coverage statistics with
the day span floored at 1 and the per-day average rounded to one decimal
place. -/
def coverageStatsSpec (articles : List TArticle) : CoverageStats :=
  if articles = [] then ⟨0, 0, 0, 0⟩
  else
    let secs := articles.map fun a => toSec a.publishedDate
    let span := max 1 ((maxSec secs - minSec secs).fdiv 86400 + 1)
    { totalArticles := articles.length
      uniqueSources := (articles.map fun a => a.publisher).toFinset.card
      dateSpanDays := span
      avgArticlesPerDay := round1 ((articles.length : ℚ) / (span : ℚ)) }

/-- The flattened contents of a grouped association list. -/
def flattenGroups {κ α : Type} (gs : List (κ × List α)) : List α :=
  gs.foldr (fun p acc => p.2 ++ acc) []

/-- The granularity string `daily`. -/
def dailyG : List Char := "daily".toList

/-- Scenario A of the spec: three same-day articles at 12:00. -/
def dtA : DateTime := ⟨2024, 1, 10, 12, 0, 0⟩

/-- Scenario A, first article (Reuters). -/
def artA1 : Article := ⟨"Fed raises rates".toList, "l1".toList, dtA, "Reuters".toList, []⟩

/-- Scenario A, second article (BBC). -/
def artA2 : Article :=
  ⟨"Fed Raises Interest Rates Again".toList, "l2".toList, dtA, "BBC".toList, []⟩

/-- Scenario A, third article (Daily Gazette). -/
def artA3 : Article :=
  ⟨"Local bakery wins award".toList, "l3".toList, dtA, "Daily Gazette".toList, []⟩

/-- The Scenario A input list. -/
def scenarioA : List Article := [artA1, artA2, artA3]

/-- An article published one second before its day ends. -/
def artB1 : Article :=
  ⟨"Federal Reserve raises rates today".toList, "x".toList, ⟨1970, 1, 1, 23, 59, 59⟩,
    "x".toList, []⟩

/-- An article with the same title published at the very start of the day. -/
def artB2 : Article :=
  ⟨"Federal Reserve raises rates today".toList, "x".toList, ⟨1970, 1, 1, 0, 0, 0⟩,
    "x".toList, []⟩

/-- A single mid-day article used as a small pipeline input. -/
def artC10 : Article :=
  ⟨"Federal Reserve announcement today".toList, "lc".toList, ⟨1970, 1, 1, 12, 0, 0⟩,
    "x".toList, []⟩

/-- The key event that `processBucket` emits for `[artC10]` on day 0. -/
def evC10 : KeyEvent :=
  { periodStart := 0
    title := artC10.title
    link := artC10.link
    published := artC10.published
    clusterSize := 1
    importanceScore := 1.98
    uniqueSources := 1
    avgAuthority := 1
    summary := artC10.title }

/-- An article with no description. -/
def artND : Article :=
  ⟨"t".toList, "l".toList, ⟨1970, 1, 1, 0, 0, 0⟩, "x".toList, []⟩

/-- A 300-character description whose 277-character prefix ends in a
space, with no sentence boundary. -/
def longD : List Char := List.replicate 276 'b' ++ [' '] ++ List.replicate 23 'b'

/-- An article carrying `longD` as its description. -/
def artLD : Article :=
  ⟨"t".toList, "l".toList, ⟨1970, 1, 1, 0, 0, 0⟩, "x".toList, longD⟩

/-- Timeline article on 1970-01-01. -/
def ta1 : TArticle := ⟨⟨1970, 1, 1, 0, 0, 0⟩, "x".toList⟩

/-- Timeline article on 1970-01-03, two days later. -/
def ta2 : TArticle := ⟨⟨1970, 1, 3, 0, 0, 0⟩, "x".toList⟩

/-- A text whose first raw segment is longer than 20 characters. -/
def c8text : List Char := "This sentence has more than twenty characters. Ok.".toList

/-- The first raw segment of `c8text`. -/
def c8seg : List Char := "This sentence has more than twenty characters".toList

theorem length_dropWhile_le {α : Type} (p : α → Bool) (l : List α) :
    (l.dropWhile p).length ≤ l.length := by
  induction l with
  | nil => simp [List.dropWhile]
  | cons a l ih =>
    by_cases h : p a
    · simp only [List.dropWhile, h, List.length_cons]; omega
    · simp [List.dropWhile, h]

theorem rstripChars_length_le (l : List Char) : (rstripChars l).length ≤ l.length := by
  unfold rstripChars
  calc (l.reverse.dropWhile isSpaceChar).reverse.length
      = (l.reverse.dropWhile isSpaceChar).length := List.length_reverse _
    _ ≤ l.reverse.length := length_dropWhile_le _ _
    _ = l.length := List.length_reverse _

theorem insertGrouped_ne_nil {κ α : Type} [DecidableEq κ] (k : κ) (a : α)
    (gs : List (κ × List α)) : insertGrouped k a gs ≠ [] := by
  cases gs with
  | nil => simp [insertGrouped]
  | cons p rest =>
    unfold insertGrouped
    by_cases h : p.1 = k <;> simp [h]

theorem insertGrouped_sndNe {κ α : Type} [DecidableEq κ] (k : κ) (a : α)
    (gs : List (κ × List α)) (h : ∀ p ∈ gs, p.2 ≠ []) :
    ∀ p ∈ insertGrouped k a gs, p.2 ≠ [] := by
  induction gs with
  | nil => intro p hp; simp [insertGrouped] at hp; simp [hp]
  | cons q rest ih =>
    intro p hp
    unfold insertGrouped at hp
    by_cases hq : q.1 = k
    · rw [if_pos hq] at hp
      rcases List.mem_cons.mp hp with h1 | h1
      · subst h1; simp
      · exact h p (List.mem_cons_of_mem q h1)
    · rw [if_neg hq] at hp
      rcases List.mem_cons.mp hp with h1 | h1
      · subst h1; exact h p (List.mem_cons_self p rest)
      · exact ih (fun r hr => h r (List.mem_cons_of_mem q hr)) p h1

theorem insertGrouped_keyed {κ α : Type} [DecidableEq κ] (f : α → κ) (k : κ) (a : α)
    (gs : List (κ × List α)) (hfa : f a = k)
    (h : ∀ p ∈ gs, ∀ x ∈ p.2, f x = p.1) :
    ∀ p ∈ insertGrouped k a gs, ∀ x ∈ p.2, f x = p.1 := by
  induction gs with
  | nil =>
    intro p hp x hx
    simp [insertGrouped] at hp
    subst hp; simp at hx; subst hx; exact hfa
  | cons q rest ih =>
    intro p hp x hx
    unfold insertGrouped at hp
    by_cases hq : q.1 = k
    · rw [if_pos hq] at hp
      rcases List.mem_cons.mp hp with h1 | h1
      · subst h1
        simp only at hx
        rcases List.mem_append.mp hx with h2 | h2
        · exact h q (List.mem_cons_self q rest) x h2
        · simp at h2; subst h2; rw [hfa, hq]
      · exact h p (List.mem_cons_of_mem q h1) x hx
    · rw [if_neg hq] at hp
      rcases List.mem_cons.mp hp with h1 | h1
      · subst h1; exact h p (List.mem_cons_self p rest) x hx
      · exact ih (fun r hr => h r (List.mem_cons_of_mem q hr)) p h1 x hx

theorem keys_insertGrouped_mem {κ α : Type} [DecidableEq κ] (k : κ) (a : α)
    (gs : List (κ × List α)) (h : k ∈ gs.map Prod.fst) :
    (insertGrouped k a gs).map Prod.fst = gs.map Prod.fst := by
  induction gs with
  | nil => simp at h
  | cons q rest ih =>
    unfold insertGrouped
    by_cases hq : q.1 = k
    · rw [if_pos hq]; simp
    · rw [if_neg hq]
      simp only [List.map_cons] at h ⊢
      rcases List.mem_cons.mp h with h1 | h1
      · exact absurd h1.symm hq
      · rw [ih h1]

theorem keys_insertGrouped_notMem {κ α : Type} [DecidableEq κ] (k : κ) (a : α)
    (gs : List (κ × List α)) (h : k ∉ gs.map Prod.fst) :
    (insertGrouped k a gs).map Prod.fst = gs.map Prod.fst ++ [k] := by
  induction gs with
  | nil => simp [insertGrouped]
  | cons q rest ih =>
    unfold insertGrouped
    by_cases hq : q.1 = k
    · exact absurd (by simp [hq]) h
    · rw [if_neg hq]
      simp only [List.map_cons, List.cons_append]
      rw [ih (fun hm => h (by simp [hm]))]

theorem keys_insertGrouped_nodup {κ α : Type} [DecidableEq κ] (k : κ) (a : α)
    (gs : List (κ × List α)) (h : (gs.map Prod.fst).Nodup) :
    ((insertGrouped k a gs).map Prod.fst).Nodup := by
  by_cases hk : k ∈ gs.map Prod.fst
  · rw [keys_insertGrouped_mem k a gs hk]; exact h
  · rw [keys_insertGrouped_notMem k a gs hk]
    refine List.Nodup.append h (List.nodup_singleton k) ?_
    intro x hx hx2
    simp at hx2
    subst hx2
    exact hk hx

theorem flattenGroups_cons {κ α : Type} (p : κ × List α) (gs : List (κ × List α)) :
    flattenGroups (p :: gs) = p.2 ++ flattenGroups gs := rfl

theorem flattenGroups_insertGrouped {κ α : Type} [DecidableEq κ] (k : κ) (a : α)
    (gs : List (κ × List α)) :
    List.Perm (flattenGroups (insertGrouped k a gs)) (a :: flattenGroups gs) := by
  induction gs with
  | nil => simp [insertGrouped, flattenGroups]
  | cons q rest ih =>
    unfold insertGrouped
    by_cases hq : q.1 = k
    · rw [if_pos hq]
      rw [flattenGroups_cons, flattenGroups_cons]
      have h1 : (q.2 ++ [a]) ++ flattenGroups rest = q.2 ++ a :: flattenGroups rest := by
        rw [List.append_assoc]; rfl
      rw [h1]
      exact List.perm_middle
    · rw [if_neg hq]
      rw [flattenGroups_cons, flattenGroups_cons]
      exact (List.Perm.append_left q.2 ih).trans List.perm_middle

theorem groupBy_foldl_inv {κ α : Type} [DecidableEq κ] (f : α → κ)
    (P : List (κ × List α) → Prop)
    (step : ∀ gs a, P gs → P (insertGrouped (f a) a gs)) :
    ∀ (l : List α) (gs : List (κ × List α)), P gs →
      P (l.foldl (fun gs a => insertGrouped (f a) a gs) gs) := by
  intro l
  induction l with
  | nil => intro gs h; exact h
  | cons a l ih => intro gs h; exact ih _ (step gs a h)

theorem groupBy_sndNe {κ α : Type} [DecidableEq κ] (f : α → κ) (l : List α) :
    ∀ p ∈ groupBy f l, p.2 ≠ [] := by
  unfold groupBy
  exact groupBy_foldl_inv f (fun gs => ∀ p ∈ gs, p.2 ≠ [])
    (fun gs a h => insertGrouped_sndNe (f a) a gs h) l [] (by intro p hp; cases hp)

theorem groupBy_keyed {κ α : Type} [DecidableEq κ] (f : α → κ) (l : List α) :
    ∀ p ∈ groupBy f l, ∀ x ∈ p.2, f x = p.1 := by
  unfold groupBy
  exact groupBy_foldl_inv f (fun gs => ∀ p ∈ gs, ∀ x ∈ p.2, f x = p.1)
    (fun gs a h => insertGrouped_keyed f (f a) a gs rfl h) l [] (by intro p hp; cases hp)

theorem groupBy_keysNodup {κ α : Type} [DecidableEq κ] (f : α → κ) (l : List α) :
    ((groupBy f l).map Prod.fst).Nodup := by
  unfold groupBy
  exact groupBy_foldl_inv f (fun gs => (gs.map Prod.fst).Nodup)
    (fun gs a h => keys_insertGrouped_nodup (f a) a gs h) l [] (by simp)

theorem groupBy_flatten_perm {κ α : Type} [DecidableEq κ] (f : α → κ) (l : List α) :
    List.Perm (flattenGroups (groupBy f l)) l := by
  have key : ∀ (l : List α) (gs : List (κ × List α)),
      List.Perm (flattenGroups (l.foldl (fun gs a => insertGrouped (f a) a gs) gs))
        (flattenGroups gs ++ l) := by
    intro l
    induction l with
    | nil => intro gs; simp
    | cons a l ih =>
      intro gs
      have h1 := ih (insertGrouped (f a) a gs)
      have h2 : List.Perm (flattenGroups (insertGrouped (f a) a gs) ++ l)
          ((a :: flattenGroups gs) ++ l) :=
        (flattenGroups_insertGrouped (f a) a gs).append_right l
      have h3 : (a :: flattenGroups gs) ++ l = a :: (flattenGroups gs ++ l) := rfl
      have h4 : List.Perm (a :: (flattenGroups gs ++ l)) (flattenGroups gs ++ a :: l) :=
        List.perm_middle.symm
      simp only [List.foldl_cons]
      exact ((h1.trans h2).trans (h3 ▸ h4))
  have := key l []
  simpa [flattenGroups] using this

theorem mem_flattenGroups {κ α : Type} {gs : List (κ × List α)} {x : α} :
    x ∈ flattenGroups gs ↔ ∃ p ∈ gs, x ∈ p.2 := by
  induction gs with
  | nil => simp [flattenGroups]
  | cons q rest ih =>
    rw [flattenGroups_cons]
    simp only [List.mem_append, ih, List.mem_cons]
    constructor
    · rintro (h | ⟨p, hp, hx⟩)
      · exact ⟨q, Or.inl rfl, h⟩
      · exact ⟨p, Or.inr hp, hx⟩
    · rintro ⟨p, h | hp, hx⟩
      · subst h; exact Or.inl hx
      · exact Or.inr ⟨p, hp, hx⟩

theorem groupBy_mem_of_mem {κ α : Type} [DecidableEq κ] (f : α → κ) (l : List α)
    {p : κ × List α} (hp : p ∈ groupBy f l) {x : α} (hx : x ∈ p.2) : x ∈ l :=
  (groupBy_flatten_perm f l).mem_iff.mp (mem_flattenGroups.mpr ⟨p, hp, hx⟩)

theorem keys_nodup_inj {κ α : Type} {gs : List (κ × List α)}
    (hnd : (gs.map Prod.fst).Nodup) {p q : κ × List α}
    (hp : p ∈ gs) (hq : q ∈ gs) (h : p.1 = q.1) : p = q := by
  induction gs with
  | nil => cases hp
  | cons r rest ih =>
    simp only [List.map_cons, List.nodup_cons] at hnd
    rcases List.mem_cons.mp hp with h1 | h1
    · rcases List.mem_cons.mp hq with h2 | h2
      · rw [h1, h2]
      · exfalso
        apply hnd.1
        rw [h1] at h
        rw [h]
        exact List.mem_map_of_mem Prod.fst h2
    · rcases List.mem_cons.mp hq with h2 | h2
      · exfalso
        apply hnd.1
        rw [h2] at h
        rw [← h]
        exact List.mem_map_of_mem Prod.fst h1
      · exact ih hnd.2 h1 h2

theorem groupBy_ne_nil {κ α : Type} [DecidableEq κ] (f : α → κ) {l : List α}
    (h : l ≠ []) : groupBy f l ≠ [] := by
  have key : ∀ (l : List α) (gs : List (κ × List α)), gs ≠ [] →
      l.foldl (fun gs a => insertGrouped (f a) a gs) gs ≠ [] := by
    intro l
    induction l with
    | nil => intro gs hgs; exact hgs
    | cons a l ih => intro gs _; exact ih _ (insertGrouped_ne_nil (f a) a gs)
  cases l with
  | nil => exact absurd rfl h
  | cons a l =>
    unfold groupBy
    simp only [List.foldl_cons]
    exact key l _ (insertGrouped_ne_nil (f a) a [])

theorem bestFold_cons {γ : Type} (f : γ → ℚ) (b : γ) (s : ℚ) (c : γ) (cs : List γ) :
    bestFold f (b, s) (c :: cs) = bestFold f (if s < f c then (c, f c) else (b, s)) cs := rfl

theorem bestFold_spec {γ : Type} (f : γ → ℚ) (cs : List γ) (b : γ) (s : ℚ) :
    (bestFold f (b, s) cs = (b, s) ∧ ∀ c ∈ cs, f c ≤ s)
    ∨ ((bestFold f (b, s) cs).2 = f (bestFold f (b, s) cs).1
        ∧ s < f (bestFold f (b, s) cs).1
        ∧ ∃ l₁ l₂, cs = l₁ ++ (bestFold f (b, s) cs).1 :: l₂
            ∧ (∀ c ∈ l₁, f c < f (bestFold f (b, s) cs).1)
            ∧ (∀ c ∈ l₂, f c ≤ f (bestFold f (b, s) cs).1)) := by
  induction cs generalizing b s with
  | nil => left; exact ⟨rfl, by simp⟩
  | cons c cs ih =>
    by_cases h : s < f c
    · simp only [bestFold_cons, if_pos h]
      rcases ih c (f c) with ⟨heq, hall⟩ | ⟨hfe, hlt, l₁, l₂, hsplit, h₁, h₂⟩
      · right
        rw [heq]
        exact ⟨rfl, h, [], cs, by simp, by simp, hall⟩
      · right
        refine ⟨hfe, lt_trans h hlt, c :: l₁, l₂, ?_, ?_, h₂⟩
        · rw [List.cons_append, ← hsplit]
        · intro x hx
          rcases List.mem_cons.mp hx with h3 | h3
          · subst h3; exact hlt
          · exact h₁ x h3
    · simp only [bestFold_cons, if_neg h]
      rcases ih b s with ⟨heq, hall⟩ | ⟨hfe, hlt, l₁, l₂, hsplit, h₁, h₂⟩
      · left
        refine ⟨heq, ?_⟩
        intro x hx
        rcases List.mem_cons.mp hx with h3 | h3
        · subst h3; exact not_lt.mp h
        · exact hall x h3
      · right
        refine ⟨hfe, hlt, c :: l₁, l₂, ?_, ?_, h₂⟩
        · rw [List.cons_append, ← hsplit]
        · intro x hx
          rcases List.mem_cons.mp hx with h3 | h3
          · subst h3; exact lt_of_le_of_lt (not_lt.mp h) hlt
          · exact h₁ x h3

theorem selectWinner_spec (clusters : List (List Article)) (psSec peSec : ℤ)
    (hex : ∃ c ∈ clusters, -1 < calculateImportanceScore c psSec peSec) :
    (selectWinner clusters psSec peSec).2
        = calculateImportanceScore (selectWinner clusters psSec peSec).1 psSec peSec
    ∧ ∃ l₁ l₂, clusters = l₁ ++ (selectWinner clusters psSec peSec).1 :: l₂
        ∧ (∀ c ∈ l₁, calculateImportanceScore c psSec peSec
            < calculateImportanceScore (selectWinner clusters psSec peSec).1 psSec peSec)
        ∧ (∀ c ∈ l₂, calculateImportanceScore c psSec peSec
            ≤ calculateImportanceScore (selectWinner clusters psSec peSec).1 psSec peSec) := by
  rcases bestFold_spec (fun c => calculateImportanceScore c psSec peSec) clusters [] (-1)
    with ⟨_, hall⟩ | ⟨hfe, _, l₁, l₂, hsplit, h₁, h₂⟩
  · exfalso
    obtain ⟨c, hc, hlt⟩ := hex
    exact absurd (hall c hc) (not_le.mpr hlt)
  · exact ⟨hfe, l₁, l₂, hsplit, h₁, h₂⟩

theorem selectWinner_mem (clusters : List (List Article)) (psSec peSec : ℤ)
    (hex : ∃ c ∈ clusters, -1 < calculateImportanceScore c psSec peSec) :
    (selectWinner clusters psSec peSec).1 ∈ clusters := by
  obtain ⟨-, l₁, l₂, hsplit, -, -⟩ := selectWinner_spec clusters psSec peSec hex
  have hmem : (selectWinner clusters psSec peSec).1
      ∈ l₁ ++ (selectWinner clusters psSec peSec).1 :: l₂ :=
    List.mem_append.mpr (Or.inr (List.mem_cons_self _ _))
  rw [← hsplit] at hmem
  exact hmem

theorem sortByPub_ne_nil {cluster : List Article} (h : cluster ≠ []) :
    sortByPub cluster ≠ [] := by
  cases cluster with
  | nil => exact absurd rfl h
  | cons a rest =>
    show insertByPub a (sortByPub rest) ≠ []
    cases sortByPub rest with
    | nil => simp [insertByPub]
    | cons b l =>
      unfold insertByPub
      by_cases hc : toSec a.published ≤ toSec b.published <;> simp [hc]

theorem headI_insertByPub (a : Article) (s : List Article) (hs : s ≠ []) :
    (insertByPub a s).headI =
      if toSec a.published ≤ toSec s.headI.published then a else s.headI := by
  cases s with
  | nil => exact absurd rfl hs
  | cons b rest =>
    unfold insertByPub
    by_cases hc : toSec a.published ≤ toSec b.published <;> simp [hc, List.headI]

theorem representative_isFirstMin :
    ∀ (cluster : List Article), cluster ≠ [] →
      ∃ l₁ l₂, cluster = l₁ ++ representative cluster :: l₂
        ∧ (∀ x ∈ l₁, toSec (representative cluster).published < toSec x.published)
        ∧ (∀ x ∈ cluster, toSec (representative cluster).published ≤ toSec x.published) := by
  intro cluster
  induction cluster with
  | nil => intro h; exact absurd rfl h
  | cons a rest ih =>
    intro _
    by_cases hr : rest = []
    · subst hr
      refine ⟨[], [], ?_, by simp, ?_⟩
      · simp [representative, sortByPub, insertByPub, List.headI]
      · intro x hx
        simp at hx
        subst hx
        simp [representative, sortByPub, insertByPub, List.headI]
    · obtain ⟨l₁, l₂, hsplit, hlt, hle⟩ := ih hr
      have hrep : representative (a :: rest) =
          if toSec a.published ≤ toSec (representative rest).published then a
          else representative rest := by
        show (insertByPub a (sortByPub rest)).headI = _
        rw [headI_insertByPub a (sortByPub rest) (sortByPub_ne_nil hr)]
        rfl
      by_cases hc : toSec a.published ≤ toSec (representative rest).published
      · rw [hrep, if_pos hc]
        refine ⟨[], rest, rfl, by simp, ?_⟩
        intro x hx
        rcases List.mem_cons.mp hx with h1 | h1
        · subst h1; exact le_refl _
        · exact le_trans hc (hle x h1)
      · rw [hrep, if_neg hc]
        refine ⟨a :: l₁, l₂, by rw [List.cons_append, ← hsplit], ?_, ?_⟩
        · intro x hx
          rcases List.mem_cons.mp hx with h1 | h1
          · subst h1; exact not_le.mp hc
          · exact hlt x h1
        · intro x hx
          rcases List.mem_cons.mp hx with h1 | h1
          · subst h1; exact le_of_lt (not_le.mp hc)
          · exact hle x h1

theorem one_le_lookupAuth (t : List (List Char × ℚ)) (h : ∀ p ∈ t, (1 : ℚ) ≤ p.2) :
    ∀ s, 1 ≤ lookupAuth t s := by
  induction t with
  | nil => intro s; exact le_refl 1
  | cons p rest ih =>
    intro s
    unfold lookupAuth
    by_cases hc : containsSub p.1 s
    · rw [if_pos hc]; exact h p (List.mem_cons_self p rest)
    · rw [if_neg hc]
      exact ih (fun q hq => h q (List.mem_cons_of_mem p hq)) s

theorem authTable_ge_one : ∀ p ∈ authTable, (1 : ℚ) ≤ p.2 :=
  of_decide_eq_true (by with_unfolding_all rfl)

theorem one_le_weight (src : List Char) : 1 ≤ getSourceAuthorityWeight src := by
  unfold getSourceAuthorityWeight
  by_cases h : src = []
  · rw [if_pos h]
  · rw [if_neg h]
    exact one_le_lookupAuth authTable authTable_ge_one _

theorem authorityScoreOf_nonneg (cluster : List Article) : 0 ≤ authorityScoreOf cluster := by
  apply List.sum_nonneg
  intro x hx
  obtain ⟨a, -, rfl⟩ := List.mem_map.mp hx
  exact le_trans zero_le_one (one_le_weight a.source)

theorem authorityScoreOf_append (cluster : List Article) (a : Article) :
    authorityScoreOf (cluster ++ [a]) = authorityScoreOf cluster + getSourceAuthorityWeight a.source := by
  unfold authorityScoreOf
  rw [List.map_append, List.sum_append]
  simp

theorem uniqueSourcesOf_le_append (cluster : List Article) (a : Article) :
    uniqueSourcesOf cluster ≤ uniqueSourcesOf (cluster ++ [a]) := by
  unfold uniqueSourcesOf
  apply Finset.card_le_card
  intro x hx
  rw [List.map_append, List.toFinset_append]
  exact Finset.mem_union_left _ hx

theorem freshnessOf_nonneg (a : Article) (psSec peSec : ℤ)
    (hin : psSec ≤ toSec a.published) (hdur : 0 < peSec - psSec) :
    0 ≤ freshnessOf a psSec peSec := by
  unfold freshnessOf
  apply div_nonneg
  · exact_mod_cast sub_nonneg.mpr hin
  · exact_mod_cast le_of_lt hdur

theorem avgFreshnessOf_nonneg (cluster : List Article) (psSec peSec : ℤ)
    (hin : ∀ a ∈ cluster, psSec ≤ toSec a.published) :
    0 ≤ avgFreshnessOf cluster psSec peSec := by
  unfold avgFreshnessOf
  by_cases hdur : 0 < peSec - psSec
  · rw [if_pos hdur]
    by_cases hc : cluster = []
    · rw [if_pos hc]; norm_num
    · rw [if_neg hc]
      apply div_nonneg
      · apply List.sum_nonneg
        intro x hx
        obtain ⟨a, ha, rfl⟩ := List.mem_map.mp hx
        exact freshnessOf_nonneg a psSec peSec (hin a ha) hdur
      · exact Nat.cast_nonneg _
  · rw [if_neg hdur]; norm_num

theorem score_nonneg (cluster : List Article) (psSec peSec : ℤ)
    (hin : ∀ a ∈ cluster, psSec ≤ toSec a.published) :
    0 ≤ calculateImportanceScore cluster psSec peSec := by
  unfold calculateImportanceScore
  have h1 : (0 : ℚ) ≤ (cluster.length : ℚ) := Nat.cast_nonneg _
  have h2 : (0 : ℚ) ≤ (uniqueSourcesOf cluster : ℚ) := Nat.cast_nonneg _
  have h3 := authorityScoreOf_nonneg cluster
  have h4 := avgFreshnessOf_nonneg cluster psSec peSec hin
  nlinarith

theorem daysFromCivil_day (y m d : ℤ) :
    daysFromCivil y m d = daysFromCivil y m 1 + (d - 1) := by
  simp only [daysFromCivil]
  ring

theorem periodStartDay_le (g : List Char) (dt : DateTime) (h : ValidDT dt) :
    periodStartDay g dt * 86400 ≤ toSec dt := by
  obtain ⟨h1, h2, h3, h4, h5, h6, h7, h8, h9, h10⟩ := h
  unfold periodStartDay toSec
  by_cases hg1 : g = "daily".toList
  · rw [if_pos hg1]
    linarith
  · rw [if_neg hg1]
    by_cases hg2 : g = "monthly".toList
    · rw [if_pos hg2]
      rw [daysFromCivil_day dt.year dt.month dt.day]
      nlinarith
    · rw [if_neg hg2]
      have hm : 0 ≤ (daysFromCivil dt.year dt.month dt.day + 3).emod 7 :=
        Int.emod_nonneg _ (by norm_num)
      nlinarith

theorem length_filterMap_of_all_some {α β : Type} (F : α → Option β) (l : List α)
    (h : ∀ x ∈ l, F x ≠ none) : (l.filterMap F).length = l.length := by
  induction l with
  | nil => simp
  | cons a l ih =>
    cases hF : F a with
    | none => exact absurd hF (h a (List.mem_cons_self a l))
    | some b =>
      rw [List.filterMap_cons, hF]
      simp only [List.length_cons]
      rw [ih (fun x hx => h x (List.mem_cons_of_mem a hx))]

theorem length_insertEvent (e : KeyEvent) (l : List KeyEvent) :
    (insertEvent e l).length = l.length + 1 := by
  induction l with
  | nil => rfl
  | cons x rest ih =>
    unfold insertEvent
    by_cases h : e.periodStart ≤ x.periodStart
    · rw [if_pos h]; rfl
    · rw [if_neg h]; simp [ih]

theorem length_sortEvents (l : List KeyEvent) : (sortEvents l).length = l.length := by
  induction l with
  | nil => rfl
  | cons e rest ih =>
    show (insertEvent e (sortEvents rest)).length = rest.length + 1
    rw [length_insertEvent, ih]

theorem processBucket_ne_none (g : List Char) (ps : ℤ) (arr : List Article)
    (h : (selectWinner ((groupBy clusterKey arr).map Prod.snd) (ps * 86400)
        (periodEndDay g ps * 86400)).1 ≠ []) :
    processBucket g ps arr ≠ none := by
  unfold processBucket
  rw [if_neg h]
  simp

theorem processBucket_fields (g : List Char) (ps : ℤ) (arr : List Article) (ev : KeyEvent)
    (h : processBucket g ps arr = some ev) :
    (selectWinner ((groupBy clusterKey arr).map Prod.snd) (ps * 86400)
        (periodEndDay g ps * 86400)).1 ≠ []
    ∧ ev.title = (representative ((selectWinner ((groupBy clusterKey arr).map Prod.snd)
        (ps * 86400) (periodEndDay g ps * 86400)).1)).title
    ∧ ev.link = (representative ((selectWinner ((groupBy clusterKey arr).map Prod.snd)
        (ps * 86400) (periodEndDay g ps * 86400)).1)).link
    ∧ ev.published = (representative ((selectWinner ((groupBy clusterKey arr).map Prod.snd)
        (ps * 86400) (periodEndDay g ps * 86400)).1)).published := by
  unfold processBucket at h
  by_cases hw : (selectWinner ((groupBy clusterKey arr).map Prod.snd) (ps * 86400)
      (periodEndDay g ps * 86400)).1 = []
  · rw [if_pos hw] at h
    cases h
  · rw [if_neg hw] at h
    have h2 := Option.some.inj h
    refine ⟨hw, ?_, ?_, ?_⟩ <;> rw [← h2]

theorem bucket_scores_above_init (g : List Char) (items : List Article)
    (hvalid : ∀ a ∈ items, ValidDT a.published)
    {b : ℤ × List Article}
    (hb : b ∈ groupBy (fun a => periodStartDay g a.published) items) :
    ∀ c ∈ (groupBy clusterKey b.2).map Prod.snd,
      (∀ x ∈ c, b.1 * 86400 ≤ toSec x.published)
      ∧ 0 ≤ calculateImportanceScore c (b.1 * 86400) (periodEndDay g b.1 * 86400) := by
  have hkey : ∀ x ∈ b.2, periodStartDay g x.published = b.1 :=
    groupBy_keyed _ items b hb
  have hin : ∀ x ∈ b.2, b.1 * 86400 ≤ toSec x.published := by
    intro x hx
    have h1 := periodStartDay_le g x.published
      (hvalid x (groupBy_mem_of_mem _ items hb hx))
    rw [hkey x hx] at h1
    exact h1
  intro c hc
  obtain ⟨p, hp, rfl⟩ := List.mem_map.mp hc
  have hcin : ∀ x ∈ p.2, b.1 * 86400 ≤ toSec x.published :=
    fun x hx => hin x (groupBy_mem_of_mem clusterKey b.2 hp hx)
  exact ⟨hcin, score_nonneg p.2 _ _ hcin⟩

/-- C6: for every bucket's article list, grouping on the normalized-title
key partitions the list — every group is non-empty and carries exactly the
articles with its key, keys are pairwise distinct, the concatenation of
the groups is a permutation of the bucket's list, and every article of the
bucket lies in exactly one group. -/
theorem c6_clusters_partition (arr : List Article) :
    (∀ p ∈ groupBy clusterKey arr, p.2 ≠ [] ∧ ∀ x ∈ p.2, clusterKey x = p.1)
    ∧ ((groupBy clusterKey arr).map Prod.fst).Nodup
    ∧ List.Perm (flattenGroups (groupBy clusterKey arr)) arr
    ∧ ∀ x ∈ arr, ∃! p, p ∈ groupBy clusterKey arr ∧ x ∈ p.2 := by
  refine ⟨fun p hp => ⟨groupBy_sndNe _ arr p hp, groupBy_keyed _ arr p hp⟩,
    groupBy_keysNodup _ arr, groupBy_flatten_perm _ arr, ?_⟩
  intro x hx
  have hx2 : x ∈ flattenGroups (groupBy clusterKey arr) :=
    (groupBy_flatten_perm clusterKey arr).mem_iff.mpr hx
  obtain ⟨p, hp, hxp⟩ := mem_flattenGroups.mp hx2
  refine ⟨p, ⟨hp, hxp⟩, ?_⟩
  rintro q ⟨hq, hxq⟩
  have h1 : clusterKey x = p.1 := groupBy_keyed _ arr p hp x hxp
  have h2 : clusterKey x = q.1 := groupBy_keyed _ arr q hq x hxq
  exact keys_nodup_inj (groupBy_keysNodup clusterKey arr) hq hp (h2.symm.trans h1)

/-- C5: for every non-empty bucket whose articles lie at or after the
period start, the selected winner is the cluster of maximal importance
among the bucket's clusters in insertion order, and every cluster
encountered before it scores strictly lower (so ties keep the
first-encountered cluster). -/
theorem c5_winner_first_argmax (arr : List Article) (psSec peSec : ℤ)
    (hne : arr ≠ [])
    (hin : ∀ a ∈ arr, psSec ≤ toSec a.published) :
    ∃ l₁ l₂,
      (groupBy clusterKey arr).map Prod.snd
        = l₁ ++ (selectWinner ((groupBy clusterKey arr).map Prod.snd) psSec peSec).1 :: l₂
      ∧ (∀ c ∈ l₁, calculateImportanceScore c psSec peSec
          < calculateImportanceScore
              (selectWinner ((groupBy clusterKey arr).map Prod.snd) psSec peSec).1 psSec peSec)
      ∧ ∀ c ∈ (groupBy clusterKey arr).map Prod.snd,
          calculateImportanceScore c psSec peSec
            ≤ calculateImportanceScore
                (selectWinner ((groupBy clusterKey arr).map Prod.snd) psSec peSec).1
                psSec peSec := by
  have hgne := groupBy_ne_nil clusterKey hne
  obtain ⟨p, rest, hg⟩ := List.exists_cons_of_ne_nil hgne
  have hp : p ∈ groupBy clusterKey arr := by
    rw [hg]; exact List.mem_cons_self p rest
  have hc0 : p.2 ∈ (groupBy clusterKey arr).map Prod.snd :=
    List.mem_map_of_mem Prod.snd hp
  have hcin : ∀ x ∈ p.2, psSec ≤ toSec x.published :=
    fun x hx => hin x (groupBy_mem_of_mem clusterKey arr hp hx)
  have hex : ∃ c ∈ (groupBy clusterKey arr).map Prod.snd,
      -1 < calculateImportanceScore c psSec peSec :=
    ⟨p.2, hc0, lt_of_lt_of_le (by norm_num) (score_nonneg p.2 psSec peSec hcin)⟩
  obtain ⟨-, l₁, l₂, hsplit, h₁, h₂⟩ := selectWinner_spec _ psSec peSec hex
  refine ⟨l₁, l₂, hsplit, h₁, ?_⟩
  intro c hc
  rw [hsplit] at hc
  rcases List.mem_append.mp hc with h3 | h3
  · exact le_of_lt (h₁ c h3)
  · rcases List.mem_cons.mp h3 with h4 | h4
    · rw [h4]
    · exact h₂ c h4

/-- C3: on a non-empty input with valid timestamps, every period bucket
is non-empty and produces exactly one key event — the winner-selection
loop always selects a cluster, no bucket is skipped, and the number of
emitted events equals the number of buckets. -/
theorem c3_one_event_per_bucket (items : List Article) (g : List Char)
    (hne : items ≠ [])
    (hvalid : ∀ a ∈ items, ValidDT a.published) :
    (∀ b ∈ groupBy (fun a => periodStartDay g a.published) items,
        b.2 ≠ [] ∧ processBucket g b.1 b.2 ≠ none)
    ∧ (keyEventsByPeriod items g).length
        = (groupBy (fun a => periodStartDay g a.published) items).length := by
  have hbkt : ∀ b ∈ groupBy (fun a => periodStartDay g a.published) items,
      b.2 ≠ [] ∧ processBucket g b.1 b.2 ≠ none := by
    intro b hb
    have hbne : b.2 ≠ [] := groupBy_sndNe _ items b hb
    refine ⟨hbne, ?_⟩
    apply processBucket_ne_none
    have hgne : groupBy clusterKey b.2 ≠ [] := groupBy_ne_nil clusterKey hbne
    obtain ⟨p, rest, hg⟩ := List.exists_cons_of_ne_nil hgne
    have hp : p ∈ groupBy clusterKey b.2 := by
      rw [hg]; exact List.mem_cons_self p rest
    have hc0 : p.2 ∈ (groupBy clusterKey b.2).map Prod.snd :=
      List.mem_map_of_mem Prod.snd hp
    have hscore := (bucket_scores_above_init g items hvalid hb p.2 hc0).2
    have hex : ∃ c ∈ (groupBy clusterKey b.2).map Prod.snd,
        -1 < calculateImportanceScore c (b.1 * 86400) (periodEndDay g b.1 * 86400) :=
      ⟨p.2, hc0, lt_of_lt_of_le (by norm_num) hscore⟩
    have hwmem := selectWinner_mem _ _ _ hex
    obtain ⟨q, hq, hqe⟩ := List.mem_map.mp hwmem
    rw [← hqe]
    exact groupBy_sndNe clusterKey b.2 q hq
  refine ⟨hbkt, ?_⟩
  unfold keyEventsByPeriod
  rw [length_sortEvents]
  exact length_filterMap_of_all_some _ _ (fun b hb => (hbkt b hb).2)

/-- C10: whenever a bucket emits a key event, the event's title, link and
published fields come from the representative of the winning cluster, and
that representative is the earliest-published article of the cluster —
the first one in cluster order among those sharing the earliest
instant. -/
theorem c10_representative_earliest (g : List Char) (ps : ℤ) (arr : List Article)
    (ev : KeyEvent) (h : processBucket g ps arr = some ev) :
    ∃ w l₁ l₂,
      w = (selectWinner ((groupBy clusterKey arr).map Prod.snd) (ps * 86400)
            (periodEndDay g ps * 86400)).1
      ∧ ev.title = (representative w).title
      ∧ ev.link = (representative w).link
      ∧ ev.published = (representative w).published
      ∧ w = l₁ ++ representative w :: l₂
      ∧ (∀ x ∈ l₁, toSec (representative w).published < toSec x.published)
      ∧ (∀ x ∈ w, toSec (representative w).published ≤ toSec x.published) := by
  obtain ⟨hwne, ht, hl, hpub⟩ := processBucket_fields g ps arr ev h
  obtain ⟨l₁, l₂, hsplit, hlt, hle⟩ := representative_isFirstMin _ hwne
  exact ⟨_, l₁, l₂, rfl, ht, hl, hpub, hsplit, hlt, hle⟩

theorem avgFreshnessOf_append (cluster : List Article) (psSec peSec : ℤ) (a : Article)
    (hne : cluster ≠ [])
    (hfresh : avgFreshnessOf cluster psSec peSec ≤ freshnessOf a psSec peSec) :
    avgFreshnessOf cluster psSec peSec ≤ avgFreshnessOf (cluster ++ [a]) psSec peSec := by
  unfold avgFreshnessOf at hfresh ⊢
  by_cases hdur : 0 < peSec - psSec
  · rw [if_pos hdur] at hfresh
    rw [if_neg hne] at hfresh
    rw [if_pos hdur, if_neg hne, if_pos hdur, if_neg (by simp : ¬ cluster ++ [a] = [])]
    rw [List.map_append, List.sum_append, List.length_append]
    simp only [List.map_cons, List.map_nil, List.sum_cons, List.sum_nil, List.length_cons,
      List.length_nil, add_zero]
    set S := (cluster.map fun x => freshnessOf x psSec peSec).sum with hS
    set fa := freshnessOf a psSec peSec with hfa
    have hn : (0 : ℚ) < (cluster.length : ℚ) := by
      exact_mod_cast List.length_pos.mpr hne
    rw [div_le_iff₀ hn] at hfresh
    have hcast : ((cluster.length + 1 : ℕ) : ℚ) = (cluster.length : ℚ) + 1 := by push_cast; ring
    rw [hcast]
    rw [div_le_div_iff₀ hn (by linarith)]
    nlinarith
  · rw [if_neg hdur, if_neg hdur]

/-- C2 (amended): appending a further article with the cluster's key never
decreases the importance score, provided the appended article's freshness
is at least the cluster's current average freshness (the volume,
diversity and authority components never decrease; only the freshness
average can drop, exactly when the new article is staler than the
average). -/
theorem c2_monotone_with_fresh (cluster : List Article) (psSec peSec : ℤ) (a : Article)
    (hne : cluster ≠ [])
    (hkey : ∀ b ∈ cluster, clusterKey b = clusterKey a)
    (hfresh : avgFreshnessOf cluster psSec peSec ≤ freshnessOf a psSec peSec) :
    calculateImportanceScore cluster psSec peSec
      ≤ calculateImportanceScore (cluster ++ [a]) psSec peSec := by
  unfold calculateImportanceScore
  have hlen : ((cluster ++ [a]).length : ℚ) = (cluster.length : ℚ) + 1 := by
    rw [List.length_append]
    push_cast
    simp
  have huniq : (uniqueSourcesOf cluster : ℚ) ≤ (uniqueSourcesOf (cluster ++ [a]) : ℚ) := by
    exact_mod_cast uniqueSourcesOf_le_append cluster a
  have hauth : authorityScoreOf cluster ≤ authorityScoreOf (cluster ++ [a]) := by
    rw [authorityScoreOf_append]
    have := one_le_weight a.source
    linarith
  have hfr := avgFreshnessOf_append cluster psSec peSec a hne hfresh
  rw [hlen]
  nlinarith

/-- C4: for a non-empty cluster, when the period has positive length the
importance score equals
`0.4·count + 0.25·uniqueSources + 0.2·authority + 0.15·(avgFreshness·15)`
with each article's freshness `(published − periodStart)/(periodEnd −
periodStart)` unclamped and averaged over the cluster, and when the
period is degenerate (`periodEnd = periodStart`) the average freshness
is replaced by `0.5`. -/
theorem c4_score_formula (cluster : List Article) (psSec peSec : ℤ) (hne : cluster ≠ []) :
    (psSec < peSec →
      calculateImportanceScore cluster psSec peSec
        = 0.4 * (cluster.length : ℚ) + 0.25 * (uniqueSourcesOf cluster : ℚ)
          + 0.2 * authorityScoreOf cluster
          + 0.15 * (((cluster.map fun a =>
                ((toSec a.published - psSec : ℤ) : ℚ) / ((peSec - psSec : ℤ) : ℚ)).sum
              / (cluster.length : ℚ)) * 15))
    ∧ (psSec = peSec →
      calculateImportanceScore cluster psSec peSec
        = 0.4 * (cluster.length : ℚ) + 0.25 * (uniqueSourcesOf cluster : ℚ)
          + 0.2 * authorityScoreOf cluster + 0.15 * (0.5 * 15)) := by
  constructor
  · intro hlt
    unfold calculateImportanceScore avgFreshnessOf
    rw [if_pos (by omega : (0 : ℤ) < peSec - psSec), if_neg hne]
    simp only [freshnessOf]
    ring
  · intro heq
    unfold calculateImportanceScore avgFreshnessOf
    rw [if_neg (by omega : ¬ (0 : ℤ) < peSec - psSec)]
    ring

/-- C7 (amended): when the cluster has at least one non-empty
description, the cluster summary is at most 280 characters, and whenever
the combined first sentences exceed 280 characters the output is the
right-stripped first 277 characters followed by an ellipsis; with no
descriptions the fallback title is returned unchanged and is not subject
to the bound. -/
theorem c7_summary_bound (cluster : List Article) (fallback : List Char)
    (h : descsOf cluster ≠ []) :
    (summarizeCluster cluster fallback).length ≤ 280
    ∧ (280 < (combineTop2 (descsOf cluster)).length →
        summarizeCluster cluster fallback
          = rstripChars ((combineTop2 (descsOf cluster)).take 277) ++ "...".toList) := by
  constructor
  · show (if descsOf cluster = [] then fallback
      else truncate280 (combineTop2 (descsOf cluster))).length ≤ 280
    rw [if_neg h]
    unfold truncate280
    by_cases hl : 280 < (combineTop2 (descsOf cluster)).length
    · rw [if_pos hl]
      rw [List.length_append]
      have h1 := rstripChars_length_le ((combineTop2 (descsOf cluster)).take 277)
      have h2 : ((combineTop2 (descsOf cluster)).take 277).length ≤ 277 := by
        rw [List.length_take]
        exact min_le_left _ _
      have h3 : ("...".toList).length = 3 := rfl
      omega
    · rw [if_neg hl]
      omega
  · intro hl
    show (if descsOf cluster = [] then fallback
      else truncate280 (combineTop2 (descsOf cluster))) = _
    rw [if_neg h]
    unfold truncate280
    rw [if_pos hl]

/-- C8 (amended): splitting on runs of the three sentence terminators
yields the candidate segments, and a trimmed segment is kept as a
sentence exactly when its length strictly exceeds 20 characters — a
trimmed segment of exactly 20 characters is discarded. -/
theorem c8_split_keep_iff (text seg : List Char) (h : seg ∈ splitRaw text) :
    stripChars seg ∈ splitSentences text ↔ 20 < (stripChars seg).length := by
  unfold splitSentences
  constructor
  · intro hm
    exact of_decide_eq_true (List.mem_filter.mp hm).2
  · intro hl
    exact List.mem_filter.mpr ⟨List.mem_map_of_mem stripChars h, decide_eq_true hl⟩

theorem le_foldl_max (l : List ℤ) : ∀ a : ℤ, a ≤ l.foldl max a := by
  induction l with
  | nil => intro a; exact le_refl a
  | cons x rest ih => intro a; exact le_trans (le_max_left a x) (ih (max a x))

theorem foldl_min_le (l : List ℤ) : ∀ a : ℤ, l.foldl min a ≤ a := by
  induction l with
  | nil => intro a; exact le_refl a
  | cons x rest ih => intro a; exact le_trans (ih (min a x)) (min_le_left a x)

theorem minSec_le_maxSec (l : List ℤ) : minSec l ≤ maxSec l :=
  le_trans (foldl_min_le l l.headI) (le_foldl_max l l.headI)

/-- C9 (amended): the coverage statistics equal the spec-side record —
zeros on the empty list; otherwise the article count, the distinct
publisher count, the day span `(max − min).days + 1` floored at 1, and
the per-day average `totalArticles / dateSpanDays` rounded to one
decimal place. -/
theorem c9_coverage_stats (articles : List TArticle) :
    getCoverageStats articles = coverageStatsSpec articles := by
  unfold getCoverageStats coverageStatsSpec
  by_cases h : articles = []
  · rw [if_pos h, if_pos h]
  · rw [if_neg h, if_neg h]
    dsimp only
    have hle : minSec (articles.map fun a => toSec a.publishedDate)
        ≤ maxSec (articles.map fun a => toSec a.publishedDate) := minSec_le_maxSec _
    have hs : 0 ≤ (maxSec (articles.map fun a => toSec a.publishedDate)
        - minSec (articles.map fun a => toSec a.publishedDate)).fdiv 86400 :=
      Int.fdiv_nonneg (sub_nonneg.mpr hle) (by norm_num)
    have h1 : max ((maxSec (articles.map fun a => toSec a.publishedDate)
          - minSec (articles.map fun a => toSec a.publishedDate)).fdiv 86400 + 1) 1
        = (maxSec (articles.map fun a => toSec a.publishedDate)
          - minSec (articles.map fun a => toSec a.publishedDate)).fdiv 86400 + 1 :=
      max_eq_left (by omega)
    have h2 : max 1 ((maxSec (articles.map fun a => toSec a.publishedDate)
          - minSec (articles.map fun a => toSec a.publishedDate)).fdiv 86400 + 1)
        = (maxSec (articles.map fun a => toSec a.publishedDate)
          - minSec (articles.map fun a => toSec a.publishedDate)).fdiv 86400 + 1 :=
      max_eq_right (by omega)
    rw [h1, h2]

set_option maxRecDepth 1000000 in
/-- C1 fails on the code: on the Scenario A input the two Fed titles
normalize to different keys, so the bucket holds three singleton
clusters and the single emitted key event has cluster size 1 — no
size-2 cluster and no event with `clusterSize = 2` exists. -/
theorem c1_counterexample :
    normalizeTitle artA1.title ≠ normalizeTitle artA2.title
    ∧ (groupBy clusterKey scenarioA).map (fun p => p.2.length) = [1, 1, 1]
    ∧ (keyEventsByPeriod scenarioA dailyG).map (fun e => e.clusterSize) = [1] :=
  of_decide_eq_true (by with_unfolding_all rfl)

set_option maxRecDepth 1000000 in
/-- C1 (amended): on the Scenario A input with all three articles
published at 12:00, the titles normalize to `fed raises rates`,
`fed raises interest rates again` and `local bakery wins award`, giving
three singleton clusters; exactly one key event is emitted for the day,
with `clusterSize = 1`, `uniqueSources = 1` and the Reuters article as
representative — the two Fed clusters tie on importance and both outscore
the bakery cluster, and the tie keeps the first-encountered (Reuters)
cluster. -/
theorem c1_scenario_a :
    normalizeTitle artA1.title = "fed raises rates".toList
    ∧ normalizeTitle artA2.title = "fed raises interest rates again".toList
    ∧ normalizeTitle artA3.title = "local bakery wins award".toList
    ∧ (groupBy clusterKey scenarioA).map (fun p => p.2.length) = [1, 1, 1]
    ∧ (keyEventsByPeriod scenarioA dailyG).map
        (fun e => (e.periodStart, e.clusterSize, e.uniqueSources, e.title))
      = [(19732, 1, 1, artA1.title)]
    ∧ calculateImportanceScore [artA1] (19732 * 86400) (19733 * 86400)
        = calculateImportanceScore [artA2] (19732 * 86400) (19733 * 86400)
    ∧ calculateImportanceScore [artA3] (19732 * 86400) (19733 * 86400)
        < calculateImportanceScore [artA1] (19732 * 86400) (19733 * 86400) :=
  of_decide_eq_true (by with_unfolding_all rfl)

set_option maxRecDepth 1000000 in
/-- C2 fails on the code: appending a same-keyed article published at the
very start of the period to a singleton cluster published at its end
lowers the score — the freshness average drops by more than the volume
and authority terms gain. -/
theorem c2_counterexample :
    normalizeTitle artB2.title = normalizeTitle artB1.title
    ∧ calculateImportanceScore ([artB1] ++ [artB2]) 0 86400
        < calculateImportanceScore [artB1] 0 86400 :=
  of_decide_eq_true (by with_unfolding_all rfl)

set_option maxRecDepth 1000000 in
/-- Witness for C2 as amended: appending the cluster's own article (whose
freshness equals the average) does not decrease the score. -/
theorem c2_monotone_with_fresh_witness :
    ([artB1] ≠ []
      ∧ (∀ b ∈ [artB1], clusterKey b = clusterKey artB1)
      ∧ avgFreshnessOf [artB1] 0 86400 ≤ freshnessOf artB1 0 86400)
    ∧ calculateImportanceScore [artB1] 0 86400
        ≤ calculateImportanceScore ([artB1] ++ [artB1]) 0 86400 :=
  ⟨⟨of_decide_eq_true (by with_unfolding_all rfl),
      of_decide_eq_true (by with_unfolding_all rfl),
      of_decide_eq_true (by with_unfolding_all rfl)⟩,
    c2_monotone_with_fresh [artB1] 0 86400 artB1
      (of_decide_eq_true (by with_unfolding_all rfl))
      (of_decide_eq_true (by with_unfolding_all rfl))
      (of_decide_eq_true (by with_unfolding_all rfl))⟩

set_option maxRecDepth 1000000 in
/-- Witness for C3 at a one-article daily input. -/
theorem c3_one_event_per_bucket_witness :
    ([artC10] ≠ [] ∧ (∀ a ∈ [artC10], ValidDT a.published))
    ∧ ((∀ b ∈ groupBy (fun a => periodStartDay dailyG a.published) [artC10],
          b.2 ≠ [] ∧ processBucket dailyG b.1 b.2 ≠ none)
        ∧ (keyEventsByPeriod [artC10] dailyG).length
            = (groupBy (fun a => periodStartDay dailyG a.published) [artC10]).length) :=
  ⟨⟨of_decide_eq_true (by with_unfolding_all rfl),
      of_decide_eq_true (by with_unfolding_all rfl)⟩,
    c3_one_event_per_bucket [artC10] dailyG
      (of_decide_eq_true (by with_unfolding_all rfl))
      (of_decide_eq_true (by with_unfolding_all rfl))⟩

set_option maxRecDepth 1000000 in
/-- Witness for C4 at a one-article cluster over a one-day period. -/
theorem c4_score_formula_witness :
    ([artC10] ≠ [] : Prop)
    ∧ (((0 : ℤ) < 86400 →
        calculateImportanceScore [artC10] 0 86400
          = 0.4 * (([artC10] : List Article).length : ℚ)
            + 0.25 * (uniqueSourcesOf [artC10] : ℚ)
            + 0.2 * authorityScoreOf [artC10]
            + 0.15 * ((([artC10].map fun a =>
                  ((toSec a.published - 0 : ℤ) : ℚ) / ((86400 - 0 : ℤ) : ℚ)).sum
                / (([artC10] : List Article).length : ℚ)) * 15))
      ∧ ((0 : ℤ) = 86400 →
        calculateImportanceScore [artC10] 0 86400
          = 0.4 * (([artC10] : List Article).length : ℚ)
            + 0.25 * (uniqueSourcesOf [artC10] : ℚ)
            + 0.2 * authorityScoreOf [artC10] + 0.15 * (0.5 * 15))) :=
  ⟨of_decide_eq_true (by with_unfolding_all rfl),
    c4_score_formula [artC10] 0 86400 (of_decide_eq_true (by with_unfolding_all rfl))⟩

set_option maxRecDepth 1000000 in
/-- Witness for C5 at a one-article daily bucket. -/
theorem c5_winner_first_argmax_witness :
    ([artC10] ≠ [] ∧ (∀ a ∈ [artC10], (0 : ℤ) ≤ toSec a.published))
    ∧ ∃ l₁ l₂,
        (groupBy clusterKey [artC10]).map Prod.snd
          = l₁ ++ (selectWinner ((groupBy clusterKey [artC10]).map Prod.snd) 0 86400).1 :: l₂
        ∧ (∀ c ∈ l₁, calculateImportanceScore c 0 86400
            < calculateImportanceScore
                (selectWinner ((groupBy clusterKey [artC10]).map Prod.snd) 0 86400).1 0 86400)
        ∧ ∀ c ∈ (groupBy clusterKey [artC10]).map Prod.snd,
            calculateImportanceScore c 0 86400
              ≤ calculateImportanceScore
                  (selectWinner ((groupBy clusterKey [artC10]).map Prod.snd) 0 86400).1
                  0 86400 :=
  ⟨⟨of_decide_eq_true (by with_unfolding_all rfl),
      of_decide_eq_true (by with_unfolding_all rfl)⟩,
    c5_winner_first_argmax [artC10] 0 86400
      (of_decide_eq_true (by with_unfolding_all rfl))
      (of_decide_eq_true (by with_unfolding_all rfl))⟩

/-- Witness for C6 at a one-article bucket. -/
theorem c6_clusters_partition_witness :
    (∀ p ∈ groupBy clusterKey [artC10], p.2 ≠ [] ∧ ∀ x ∈ p.2, clusterKey x = p.1)
    ∧ ((groupBy clusterKey [artC10]).map Prod.fst).Nodup
    ∧ List.Perm (flattenGroups (groupBy clusterKey [artC10])) [artC10]
    ∧ ∀ x ∈ [artC10], ∃! p, p ∈ groupBy clusterKey [artC10] ∧ x ∈ p.2 :=
  c6_clusters_partition [artC10]

set_option maxRecDepth 1000000 in
/-- C7 fails on the code: a cluster with no descriptions returns the
fallback title unchanged, so a 281-character fallback gives output longer
than 280; and with a long description whose 277-character prefix ends in
a space, the output is not the plain first-277-characters-plus-ellipsis
because the prefix is right-stripped first. -/
theorem c7_counterexample :
    280 < (summarizeCluster [artND] (List.replicate 281 'a')).length
    ∧ 280 < (combineTop2 (descsOf [artLD])).length
    ∧ summarizeCluster [artLD] "t".toList
        ≠ (combineTop2 (descsOf [artLD])).take 277 ++ "...".toList :=
  of_decide_eq_true (by with_unfolding_all rfl)

set_option maxRecDepth 1000000 in
/-- Witness for C7 as amended at a cluster with one long description. -/
theorem c7_summary_bound_witness :
    descsOf [artLD] ≠ []
    ∧ ((summarizeCluster [artLD] "t".toList).length ≤ 280
      ∧ (280 < (combineTop2 (descsOf [artLD])).length →
          summarizeCluster [artLD] "t".toList
            = rstripChars ((combineTop2 (descsOf [artLD])).take 277) ++ "...".toList)) :=
  ⟨of_decide_eq_true (by with_unfolding_all rfl),
    c7_summary_bound [artLD] "t".toList (of_decide_eq_true (by with_unfolding_all rfl))⟩

set_option maxRecDepth 1000000 in
/-- C8 fails on the code: a raw segment whose trimmed length is exactly
20 characters is discarded, not kept. -/
theorem c8_counterexample :
    "aaaaaaaaaaaaaaaaaaaa".toList ∈ splitRaw "aaaaaaaaaaaaaaaaaaaa.".toList
    ∧ (stripChars "aaaaaaaaaaaaaaaaaaaa".toList).length = 20
    ∧ stripChars "aaaaaaaaaaaaaaaaaaaa".toList
        ∉ splitSentences "aaaaaaaaaaaaaaaaaaaa.".toList :=
  of_decide_eq_true (by with_unfolding_all rfl)

set_option maxRecDepth 1000000 in
/-- Witness for C8 as amended at a 45-character first segment. -/
theorem c8_split_keep_iff_witness :
    c8seg ∈ splitRaw c8text
    ∧ (stripChars c8seg ∈ splitSentences c8text ↔ 20 < (stripChars c8seg).length) :=
  ⟨of_decide_eq_true (by with_unfolding_all rfl),
    c8_split_keep_iff c8text c8seg (of_decide_eq_true (by with_unfolding_all rfl))⟩

set_option maxRecDepth 1000000 in
/-- C9 fails on the code: two articles published two days apart give
`avgArticlesPerDay = 0.7`, the one-decimal rounding of `2/3`, not the
exact quotient `2/3` the claim states. -/
theorem c9_counterexample :
    getCoverageStats [ta1, ta2]
      = { totalArticles := 2, uniqueSources := 1, dateSpanDays := 3,
          avgArticlesPerDay := 7/10 }
    ∧ (7/10 : ℚ) ≠ (2 : ℚ)/3 :=
  ⟨of_decide_eq_true (by with_unfolding_all rfl), by norm_num⟩

set_option maxRecDepth 1000000 in
/-- Witness for C10 at a one-article daily bucket. -/
theorem c10_representative_earliest_witness :
    processBucket dailyG 0 [artC10] = some evC10
    ∧ ∃ w l₁ l₂,
        w = (selectWinner ((groupBy clusterKey [artC10]).map Prod.snd) (0 * 86400)
              (periodEndDay dailyG 0 * 86400)).1
        ∧ evC10.title = (representative w).title
        ∧ evC10.link = (representative w).link
        ∧ evC10.published = (representative w).published
        ∧ w = l₁ ++ representative w :: l₂
        ∧ (∀ x ∈ l₁, toSec (representative w).published < toSec x.published)
        ∧ (∀ x ∈ w, toSec (representative w).published ≤ toSec x.published) :=
  ⟨of_decide_eq_true (by with_unfolding_all rfl),
    c10_representative_earliest dailyG 0 [artC10] evC10
      (of_decide_eq_true (by with_unfolding_all rfl))⟩
